import Mathlib

/-!
Shallow embedding of the synchronization/addressing core declared in
`src/core.h` of the tinyloop/nccl repository, together with theorems
settling the specification's claims about it.

The header declares the data model (`ncclMem`, `ncclNodeRef`, `ncclComm`),
the compile-time constants (`MAXRINGS`, `MAXFLAGS`,
`DEFAULT_BUFFER_SIZE_BYTES`, `NCCL_MEM_PAD_ALIGN`), the diagnostics level
(`DebugLevel`) and the `WARN`/`INFO` diagnostic macros.  Operations whose
implementation lives outside the header (table construction, the
publish/consume handshake, communicator lifecycle) are modelled from the
specification; each such definition says so in its doc comment.
-/

/-- `#define MAXRINGS 8` from core.h. -/
def MAXRINGS : Nat := 8

/-- `#define MAXFLAGS 16` from core.h. -/
def MAXFLAGS : Nat := 16

/-- `#define DEFAULT_BUFFER_SIZE_BYTES (1UL << 25)` from core.h. -/
def DEFAULT_BUFFER_SIZE_BYTES : Nat := 1 <<< 25

/-- `#define NCCL_MEM_PAD_ALIGN 4096` from core.h. -/
def NCCL_MEM_PAD_ALIGN : Nat := 4096

/-! ### Byte layout of `ncclMem`

`struct ncclMem` is a union of an anonymous header struct
(`int flags[MAXFLAGS]; void* recvPtrs[MAXFLAGS]; int opCounter;`) with
`char pad[NCCL_MEM_PAD_ALIGN]`, followed by `char buff[NCCL_MEM_PAD_ALIGN]`.
We model the C layout rules symbolically: field offsets are accumulated
with alignment rounding, the union's size is the maximum of its members'
sizes rounded to the union's alignment, and `buff` starts where the union
ends.  The parameters (sizes and alignments of `int` and `void*`) are left
abstract so that the layout facts are independent of any one compiler's
packing choices. -/

/-- Round `n` up to the next multiple of `a` (C layout alignment). -/
def alignUp (n a : Nat) : Nat := ((n + a - 1) / a) * a

/-- Compiler-chosen sizes and alignments for the scalar types appearing in
the `ncclMem` header (`int` and `void*`). -/
structure Packing where
  sizeInt : Nat
  sizePtr : Nat
  alignInt : Nat
  alignPtr : Nat
  alignInt_pos : 0 < alignInt
  alignPtr_pos : 0 < alignPtr
  sizeInt_pos : 0 < sizeInt

/-- Offset of `flags` in the `ncclMem` header: first field, offset 0. -/
def flagsOffset (_ : Packing) : Nat := 0

/-- Offset of `recvPtrs`: after the `flags` array, rounded up to pointer
alignment. -/
def recvPtrsOffset (p : Packing) : Nat :=
  alignUp (flagsOffset p + MAXFLAGS * p.sizeInt) p.alignPtr

/-- Offset of `opCounter`: after the `recvPtrs` array, rounded up to int
alignment. -/
def opCounterOffset (p : Packing) : Nat :=
  alignUp (recvPtrsOffset p + MAXFLAGS * p.sizePtr) p.alignInt

/-- One-past-the-end byte of the last header field. -/
def headerEnd (p : Packing) : Nat := opCounterOffset p + p.sizeInt

/-- Alignment of the header struct: max of its members' alignments. -/
def headerAlign (p : Packing) : Nat := max p.alignInt p.alignPtr

/-- `sizeof` of the anonymous header struct: end of last field rounded up
to the struct's alignment. -/
def headerSize (p : Packing) : Nat := alignUp (headerEnd p) (headerAlign p)

/-- `sizeof` of the anonymous union: the larger of the header struct and
`char pad[NCCL_MEM_PAD_ALIGN]` (size 4096, alignment 1), rounded up to the
union's alignment, which is the header's alignment. -/
def unionSize (p : Packing) : Nat :=
  alignUp (max (headerSize p) NCCL_MEM_PAD_ALIGN) (headerAlign p)

/-- `offsetof(ncclMem, buff)`: `buff` starts right after the union. -/
def buffOffset (p : Packing) : Nat := unionSize p

/-! ### Diagnostics (`DebugLevel`, `WARN`, `INFO`) -/

/-- `typedef enum {NONE=0, WARN=1, INFO=2, ABORT=3} DebugLevel;` -/
inductive DebugLevel where
  | NONE
  | WARN
  | INFO
  | ABORT
deriving DecidableEq

/-- Numeric value of each enumerator, as assigned in the C enum. -/
def DebugLevel.toNat : DebugLevel → Nat
  | .NONE => 0
  | .WARN => 1
  | .INFO => 2
  | .ABORT => 3

/-- Observable effect of one diagnostic macro invocation: whether the
message was printed and whether the process was terminated via `abort()`. -/
structure LogEffect where
  emitted : Bool
  aborted : Bool
deriving DecidableEq

/-- The `WARN(...)` macro from core.h: prints when `ncclDebugLevel >= WARN`
and, inside that branch, calls `abort()` when `ncclDebugLevel >= ABORT`. -/
def WARN (lvl : DebugLevel) : LogEffect :=
  if 1 ≤ lvl.toNat then
    { emitted := true, aborted := if 3 ≤ lvl.toNat then true else false }
  else
    { emitted := false, aborted := false }

/-- The `INFO(...)` macro from core.h: prints when
`ncclDebugLevel >= INFO`; it never aborts. -/
def INFO (lvl : DebugLevel) : LogEffect :=
  if 2 ≤ lvl.toNat then
    { emitted := true, aborted := false }
  else
    { emitted := false, aborted := false }

/-! ### Synchronization Block contents (`ncclMem`) -/

/-- `struct ncclMem` header contents: `int flags[MAXFLAGS]`,
`void* recvPtrs[MAXFLAGS]`, `int opCounter`.  The fixed-size C arrays are
modelled as lists whose lengths are pinned to `MAXFLAGS`; a published
pointer is an opaque `Nat` address, `none` standing for a slot whose
pointer has not been published. -/
structure ncclMem where
  flags : List Int
  recvPtrs : List (Option Nat)
  opCounter : Int
  flags_size : flags.length = MAXFLAGS
  recvPtrs_size : recvPtrs.length = MAXFLAGS

/-! ### Peer Reference (`ncclNodeRef`) -/

/-- `enum {DEVICE, HOST} type` discriminator of `ncclNodeRef`. -/
inductive NodeRefKind where
  | DEVICE
  | HOST
deriving DecidableEq

/-- `struct ncclNodeRef`: pointers to the remote and local Synchronization
Blocks, the addressing-mode discriminator, the two cleanup handles and the
peer opCounter pointer.  Pointers are opaque `Nat` addresses; a cleanup
handle that was never set is `none`. -/
structure ncclNodeRef where
  remote : Nat
  localMem : Nat
  kind : NodeRefKind
  devCleanup : Option Nat
  hostCleanup : Option Nat
  opCounterAddr : Nat
deriving DecidableEq

/-- Modelled from the spec and the field comments of `ncclNodeRef` in
core.h: the wiring code that fills a Peer Reference is not under `src/`.
Per core.h, `devCleanup` is "Used only when remote comm uses same process
& GPU" and `hostCleanup` is "Used whenever target is in different
process".  `sameProcess`/`sameGpu` describe where the peer lives;
`devHandle`/`hostHandle` are the resource handles that would be recorded. -/
def mkNodeRef (sameProcess sameGpu : Bool) (remoteAddr localAddr : Nat)
    (devHandle hostHandle opAddr : Nat) : ncclNodeRef :=
  { remote := remoteAddr
    localMem := localAddr
    kind := if sameProcess then NodeRefKind.DEVICE else NodeRefKind.HOST
    devCleanup := if sameProcess && sameGpu then some devHandle else none
    hostCleanup := if !sameProcess then some hostHandle else none
    opCounterAddr := opAddr }

/-- Modelled from the spec: communicator teardown releases each cleanup
handle of a Peer Reference exactly once (the teardown code is not under
`src/`).  The returned list is the sequence of handles released. -/
def teardownNodeRef (ref : ncclNodeRef) : List Nat :=
  ref.devCleanup.toList ++ ref.hostCleanup.toList

/-! ### Ring Index Tables -/

/-- Configuration failure reported when the user's rank assignment is not
a valid permutation. -/
inductive ConfigError where
  | invalidRanks
deriving DecidableEq

/-- The user→ring and ring→user tables for one ring. -/
structure RingTables where
  userFromRing : List Nat
  ringFromUser : List Nat
deriving DecidableEq

/-- Inverse table: entry `u` is the ring position of user rank `u`,
computed as the index of `u` in the rank assignment. -/
def ringFromUserOf (nDev : Nat) (ranks : List Nat) : List Nat :=
  (List.range nDev).map (fun u => ranks.indexOf u)

/-- Modelled from the spec: the table-construction code (communicator
initialization) is not under `src/`; core.h only declares the resulting
tables (`userFromRing`, `ringFromUser`).  Per the spec, the construction
validates the user's rank assignment — every rank in `[0, nDev)`, no
duplicates — and fails configuration otherwise; on success
`userFromRing` is the assignment itself and `ringFromUser` its inverse. -/
def buildRingTables (nDev : Nat) (ranks : List Nat) :
    Except ConfigError RingTables :=
  if ranks.length = nDev ∧ (∀ x ∈ ranks, x < nDev) ∧ ranks.Nodup then
    Except.ok { userFromRing := ranks, ringFromUser := ringFromUserOf nDev ranks }
  else
    Except.error ConfigError.invalidRanks

/-! ### Communicator (`ncclComm`) -/

/-- `struct ncclComm` from core.h.  Pointer-valued fields (`devMem`,
`hostMem`, `opCounter`, the per-ring tables, `prevStream`, `doneEvent`)
are modelled by the data they point at or by opaque `Nat` handles.  The
`int* xxx[MAXRINGS]` table arrays are modelled as `Nat`-indexed functions
to lists; only indices below `nRings` are meaningful. -/
structure ncclComm where
  nDev : Nat
  cudaDev : Nat
  nRings : Nat
  ringIdx : Nat → Nat
  devMem : ncclMem
  hostMem : ncclMem
  hostMemState : Int
  opSched : Int
  opCounter : Int
  prevStream : Nat
  doneEvent : Nat
  userFromRing : Nat → List Nat
  devUserFromRing : Nat → List Nat
  ringFromUser : Nat → List Nat
  ncclFromRing : Nat → List Nat
  buffSize : Nat
  useRemoteRecv : Bool
  ptrs : List ncclNodeRef

/-- Modelled from the spec: the `ready` state of the communicator
lifecycle (entered once memory is allocated, Peer References wired and
index tables computed; the initialization code is not under `src/`).
A ready communicator has a positive device count, at most `MAXRINGS`
active rings, and for every active ring its stored tables are exactly
what table construction produces from that ring's rank assignment, the
device-visible copy agreeing with the host copy. -/
def ReadyComm (c : ncclComm) : Prop :=
  0 < c.nDev ∧ c.nRings ≤ MAXRINGS ∧
    ∀ r < c.nRings,
      buildRingTables c.nDev (c.userFromRing r) =
        Except.ok { userFromRing := c.userFromRing r, ringFromUser := c.ringFromUser r } ∧
      c.devUserFromRing r = c.userFromRing r

instance {ε α : Type} [DecidableEq ε] [DecidableEq α] :
    DecidableEq (Except ε α) := fun a b =>
  match a, b with
  | Except.ok x, Except.ok y =>
      if h : x = y then isTrue (by rw [h]) else isFalse (by simp [h])
  | Except.error x, Except.error y =>
      if h : x = y then isTrue (by rw [h]) else isFalse (by simp [h])
  | Except.ok _, Except.error _ => isFalse (by simp)
  | Except.error _, Except.ok _ => isFalse (by simp)

instance (c : ncclComm) : Decidable (ReadyComm c) := by
  unfold ReadyComm; infer_instance

/-! ### Handshake protocol (publish / tryConsume)

Modelled from the spec: the producer/consumer code acting on an `ncclMem`
slot is not under `src/`; core.h only declares the `flags`/`recvPtrs`
state it acts on.  The spec's contract: `publish(step, ptr)` writes
`recvPtrs[step]` and only then sets `flags[step]` to the ready sentinel;
`tryConsume(step)` polls `flags[step]` and reads `recvPtrs[step]` only
after observing the ready sentinel.  We model one slot, one producer and
one consumer, and quantify over every interleaving of their steps. -/

/-- Sentinel for a drained slot (modelled from the spec). -/
def FLAG_DRAINED : Int := 0

/-- Sentinel for a published ("ready") slot (modelled from the spec). -/
def FLAG_READY : Int := 1

/-- Joint state of one slot's memory, the producer's program counter and
the consumer's observations. -/
structure HSState where
  flag : Int
  recvPtr : Option Nat
  ppc : Nat
  sawReady : Bool
  ptrObs : Option Nat
deriving DecidableEq

/-- Initial slot state: drained, nothing published, nothing observed. -/
def initHS : HSState :=
  { flag := FLAG_DRAINED, recvPtr := none, ppc := 0, sawReady := false,
    ptrObs := none }

/-- One producer step of `publish(step, ptr)`: first write the pointer,
then set the flag; afterwards idle. -/
def prodStep (ptr : Nat) (s : HSState) : HSState :=
  if s.ppc = 0 then { s with recvPtr := some ptr, ppc := 1 }
  else if s.ppc = 1 then { s with flag := FLAG_READY, ppc := 2 }
  else s

/-- One consumer step of `tryConsume(step)`: poll the flag until it reads
the ready sentinel; only after that read `recvPtrs[step]`. -/
def consStep (s : HSState) : HSState :=
  if s.sawReady = false then
    (if s.flag = FLAG_READY then { s with sawReady := true } else s)
  else if s.ptrObs = none then { s with ptrObs := s.recvPtr }
  else s

/-- One scheduler step: `true` runs the producer, `false` the consumer. -/
def hsStep (ptr : Nat) (s : HSState) (turn : Bool) : HSState :=
  if turn then prodStep ptr s else consStep s

/-- Run the two-peer exchange under an arbitrary interleaving. -/
def hsRun (ptr : Nat) (sched : List Bool) : HSState :=
  sched.foldl (hsStep ptr) initHS

/-! ### Epoch gating and communicator lifecycle -/

/-- Modelled from the spec: before trusting a ready flag in epoch `e`, the
consumer confirms the producer's `opCounter` has reached `e`; the polling
code is not under `src/`. -/
def consumerTrusts (producerOp epoch flag : Int) : Bool :=
  decide (epoch ≤ producerOp) && decide (flag = FLAG_READY)

/-- Per-collective-call mutations of a ready communicator, from the spec's
lifecycle section: the `opCounter` is advanced once per completed
collective operation, and the last-used stream handle is cached. -/
inductive CommEvent where
  | opComplete
  | cacheStream (s : Nat)

/-- Modelled from the spec: apply one per-call mutation (the collective
call code is not under `src/`). -/
def applyEvent (c : ncclComm) : CommEvent → ncclComm
  | CommEvent.opComplete => { c with opCounter := c.opCounter + 1 }
  | CommEvent.cacheStream s => { c with prevStream := s }

/-- Apply a sequence of per-call mutations. -/
def runEvents (c : ncclComm) (evs : List CommEvent) : ncclComm :=
  evs.foldl applyEvent c

/-- Number of completed collective operations in an event sequence. -/
def countOps (evs : List CommEvent) : Nat :=
  evs.countP (fun e => match e with
    | CommEvent.opComplete => true
    | CommEvent.cacheStream _ => false)

/-- An `ncclMem` block with all slots drained and nothing published. -/
def emptyMem : ncclMem :=
  { flags := List.replicate MAXFLAGS FLAG_DRAINED
    recvPtrs := List.replicate MAXFLAGS none
    opCounter := 0
    flags_size := by simp
    recvPtrs_size := by simp }

/-- Modelled from the spec: communicator creation (not under `src/`) sizes
the owned memory blocks by a configurable buffer size — the default
constant, or a caller-supplied override fixed at creation time. -/
def initComm (nDev cudaDev : Nat) (buffOverride : Option Nat) : ncclComm :=
  { nDev := nDev
    cudaDev := cudaDev
    nRings := 0
    ringIdx := fun _ => 0
    devMem := emptyMem
    hostMem := emptyMem
    hostMemState := 0
    opSched := 0
    opCounter := 0
    prevStream := 0
    doneEvent := 0
    userFromRing := fun _ => []
    devUserFromRing := fun _ => []
    ringFromUser := fun _ => []
    ncclFromRing := fun _ => []
    buffSize := buffOverride.getD DEFAULT_BUFFER_SIZE_BYTES
    useRemoteRecv := false
    ptrs := [] }

/-- A table is a bijection on `[0, nDev)` exactly when it is a permutation
of the list `0, 1, …, nDev-1`. -/
def IsPermOn (nDev : Nat) (t : List Nat) : Prop :=
  List.Perm t (List.range nDev)

/-- Invariant of the two-peer handshake at published pointer `ptr`: the
producer's program counter tracks exactly what is visible in memory, the
consumer's `sawReady` record is truthful, and any pointer the consumer
has read was read after the ready flag and equals the published one. -/
def HSInv (ptr : Nat) (s : HSState) : Prop :=
  (s.ppc = 0 ∧ s.flag = FLAG_DRAINED ∧ s.recvPtr = none ∨
   s.ppc = 1 ∧ s.flag = FLAG_DRAINED ∧ s.recvPtr = some ptr ∨
   s.ppc = 2 ∧ s.flag = FLAG_READY ∧ s.recvPtr = some ptr) ∧
  (s.sawReady = true → s.flag = FLAG_READY) ∧
  (∀ v, s.ptrObs = some v → s.sawReady = true ∧ v = ptr)

/-- A concrete three-device, one-ring communicator in the ready state,
with user rank assignment `[2, 0, 1]` on its single ring. -/
def comm0 : ncclComm :=
  { nDev := 3
    cudaDev := 0
    nRings := 1
    ringIdx := fun _ => 0
    devMem := emptyMem
    hostMem := emptyMem
    hostMemState := 0
    opSched := 0
    opCounter := 0
    prevStream := 0
    doneEvent := 0
    userFromRing := fun _ => [2, 0, 1]
    devUserFromRing := fun _ => [2, 0, 1]
    ringFromUser := fun _ => [1, 2, 0]
    ncclFromRing := fun _ => [0, 1, 2]
    buffSize := DEFAULT_BUFFER_SIZE_BYTES
    useRemoteRecv := false
    ptrs := [] }

/-- The LP64 data model used by the original build: 4-byte `int` with
4-byte alignment, 8-byte `void*` with 8-byte alignment. -/
def packingLP64 : Packing :=
  { sizeInt := 4, sizePtr := 8, alignInt := 4, alignPtr := 8,
    alignInt_pos := by decide, alignPtr_pos := by decide,
    sizeInt_pos := by decide }

/-! ### Helper lemmas -/

theorem le_alignUp (n a : Nat) (ha : 0 < a) : n ≤ alignUp n a := by
  unfold alignUp
  rw [Nat.mul_comm]
  have h1 : (n + a - 1) % a < a := Nat.mod_lt _ ha
  have h2 := Nat.div_add_mod (n + a - 1) a
  omega

theorem alignUp_eq_of_dvd (n a : Nat) (ha : 0 < a) (h : a ∣ n) :
    alignUp n a = n := by
  obtain ⟨k, rfl⟩ := h
  unfold alignUp
  have h1 : a * k + a - 1 = a * k + (a - 1) := by omega
  rw [h1, Nat.mul_add_div ha, Nat.div_eq_of_lt (by omega), Nat.mul_comm]
  simp

theorem headerAlign_pos (p : Packing) : 0 < headerAlign p :=
  Nat.lt_of_lt_of_le p.alignInt_pos (Nat.le_max_left _ _)

/-- Every header field ends no later than `headerEnd`. -/
theorem header_field_bounds (p : Packing) :
    flagsOffset p + MAXFLAGS * p.sizeInt ≤ recvPtrsOffset p ∧
    recvPtrsOffset p + MAXFLAGS * p.sizePtr ≤ opCounterOffset p ∧
    opCounterOffset p + p.sizeInt ≤ headerEnd p := by
  refine ⟨?_, ?_, Nat.le_refl _⟩
  · exact le_alignUp _ _ p.alignPtr_pos
  · exact le_alignUp _ _ p.alignInt_pos

/-- The header is never larger than its aligned size. -/
theorem headerEnd_le_headerSize (p : Packing) : headerEnd p ≤ headerSize p :=
  le_alignUp _ _ (headerAlign_pos p)

/-- Unfolding a successful table construction: the validation held, the
user→ring table is the rank assignment and the ring→user table is its
computed inverse. -/
theorem buildRingTables_ok {nDev : Nat} {ranks : List Nat} {t : RingTables}
    (h : buildRingTables nDev ranks = Except.ok t) :
    ranks.length = nDev ∧ (∀ x ∈ ranks, x < nDev) ∧ ranks.Nodup ∧
    t.userFromRing = ranks ∧ t.ringFromUser = ringFromUserOf nDev ranks := by
  unfold buildRingTables at h
  split at h
  · rename_i hcond
    cases h
    exact ⟨hcond.1, hcond.2.1, hcond.2.2, rfl, rfl⟩
  · cases h

/-- A valid rank assignment is a permutation of `0, …, nDev-1`. -/
theorem valid_ranks_perm {nDev : Nat} {ranks : List Nat}
    (hlen : ranks.length = nDev) (hbd : ∀ x ∈ ranks, x < nDev)
    (hnd : ranks.Nodup) : List.Perm ranks (List.range nDev) := by
  have hsub : ranks ⊆ List.range nDev := fun x hx => List.mem_range.mpr (hbd x hx)
  exact (List.subperm_of_subset hnd hsub).perm_of_length_le (by simp [hlen])

/-- Every user rank below `nDev` occurs in a valid rank assignment. -/
theorem mem_of_valid_ranks {nDev : Nat} {ranks : List Nat}
    (hlen : ranks.length = nDev) (hbd : ∀ x ∈ ranks, x < nDev)
    (hnd : ranks.Nodup) {u : Nat} (hu : u < nDev) : u ∈ ranks :=
  (valid_ranks_perm hlen hbd hnd).mem_iff.mpr (List.mem_range.mpr hu)

/-- Entry `u` of the computed inverse table is `ranks.indexOf u`. -/
theorem ringFromUserOf_getD {nDev : Nat} (ranks : List Nat) {u : Nat}
    (hu : u < nDev) : (ringFromUserOf nDev ranks).getD u 0 = ranks.indexOf u := by
  unfold ringFromUserOf
  have hlt : u < ((List.range nDev).map fun v => ranks.indexOf v).length := by
    simp [hu]
  rw [List.getD_eq_getElem _ _ hlt, List.getElem_map, List.getElem_range]

/-- The computed inverse table really is a left and right inverse of the
rank assignment, entrywise. -/
theorem ringFromUserOf_inverse {nDev : Nat} {ranks : List Nat}
    (hlen : ranks.length = nDev) (hbd : ∀ x ∈ ranks, x < nDev)
    (hnd : ranks.Nodup) (i : Nat) (hi : i < nDev) :
    (ringFromUserOf nDev ranks).getD (ranks.getD i 0) 0 = i ∧
    ranks.getD ((ringFromUserOf nDev ranks).getD i 0) 0 = i := by
  constructor
  · have hil : i < ranks.length := by omega
    rw [List.getD_eq_getElem _ _ hil]
    have hmem : ranks[i] ∈ ranks := List.getElem_mem hil
    rw [ringFromUserOf_getD ranks (hbd _ hmem)]
    exact List.indexOf_getElem hnd i hil
  · have hmem : i ∈ ranks := mem_of_valid_ranks hlen hbd hnd hi
    rw [ringFromUserOf_getD ranks hi]
    have hlt : ranks.indexOf i < ranks.length := List.indexOf_lt_length.mpr hmem
    rw [List.getD_eq_getElem _ _ hlt]
    exact List.getElem_indexOf hlt

/-- The computed inverse table is itself a permutation of `[0, nDev)`. -/
theorem ringFromUserOf_perm {nDev : Nat} {ranks : List Nat}
    (hlen : ranks.length = nDev) (hbd : ∀ x ∈ ranks, x < nDev)
    (hnd : ranks.Nodup) : List.Perm (ringFromUserOf nDev ranks) (List.range nDev) := by
  have hnd2 : (ringFromUserOf nDev ranks).Nodup := by
    unfold ringFromUserOf
    refine List.Nodup.map_on ?_ (List.nodup_range nDev)
    intro x hx y hy hxy
    have hxm : x ∈ ranks := mem_of_valid_ranks hlen hbd hnd (List.mem_range.mp hx)
    have hym : y ∈ ranks := mem_of_valid_ranks hlen hbd hnd (List.mem_range.mp hy)
    exact (List.indexOf_inj hxm hym).mp hxy
  have hsub : ringFromUserOf nDev ranks ⊆ List.range nDev := by
    unfold ringFromUserOf
    intro x hx
    obtain ⟨u, hu, rfl⟩ := List.mem_map.mp hx
    have hum : u ∈ ranks := mem_of_valid_ranks hlen hbd hnd (List.mem_range.mp hu)
    exact List.mem_range.mpr (hlen ▸ List.indexOf_lt_length.mpr hum)
  refine (List.subperm_of_subset hnd2 hsub).perm_of_length_le ?_
  unfold ringFromUserOf
  simp

theorem hsInv_init (ptr : Nat) : HSInv ptr initHS := by
  refine ⟨Or.inl ⟨rfl, rfl, rfl⟩, ?_, ?_⟩
  · intro h; simp [initHS] at h
  · intro v h; simp [initHS] at h

theorem hsInv_step (ptr : Nat) (turn : Bool) {s : HSState}
    (h : HSInv ptr s) : HSInv ptr (hsStep ptr s turn) := by
  obtain ⟨hmem, hsaw, hobs⟩ := h
  cases turn
  · show HSInv ptr (consStep s)
    unfold consStep
    split
    · rename_i hnot
      split
      · rename_i hrd
        exact ⟨hmem, fun _ => hrd, fun v hv => absurd ((hobs v hv).1) (by simp [hnot])⟩
      · exact ⟨hmem, hsaw, hobs⟩
    · rename_i hsw
      simp only [Bool.not_eq_false] at hsw
      split
      · have hrd : s.flag = FLAG_READY := hsaw hsw
        refine ⟨hmem, fun _ => hrd, ?_⟩
        intro v hv
        simp only at hv
        rcases hmem with ⟨_, hf, _⟩ | ⟨_, hf, _⟩ | ⟨_, _, hp⟩
        · rw [hf] at hrd; exact absurd hrd (by decide)
        · rw [hf] at hrd; exact absurd hrd (by decide)
        · rw [hp] at hv
          exact ⟨hsw, (Option.some_inj.mp hv).symm⟩
      · exact ⟨hmem, hsaw, hobs⟩
  · show HSInv ptr (prodStep ptr s)
    unfold prodStep
    split
    · rename_i h0
      rcases hmem with ⟨_, hf, _⟩ | ⟨h1, _, _⟩ | ⟨h2, _, _⟩
      · refine ⟨Or.inr (Or.inl ⟨rfl, hf, rfl⟩), hsaw, ?_⟩
        intro v hv
        simp only at hv
        exact hobs v hv
      · omega
      · omega
    · split
      · rename_i h0 h1
        rcases hmem with ⟨hc, _, _⟩ | ⟨_, _, hp⟩ | ⟨h2, _, _⟩
        · omega
        · refine ⟨Or.inr (Or.inr ⟨rfl, rfl, hp⟩), fun _ => rfl, ?_⟩
          intro v hv
          simp only at hv
          exact hobs v hv
        · omega
      · exact ⟨hmem, hsaw, hobs⟩

theorem hsInv_run_from (ptr : Nat) (sched : List Bool) :
    ∀ s : HSState, HSInv ptr s → HSInv ptr (sched.foldl (hsStep ptr) s) := by
  induction sched with
  | nil => intro s h; exact h
  | cons t rest ih =>
      intro s h
      exact ih _ (hsInv_step ptr t h)

theorem hsInv_run (ptr : Nat) (sched : List Bool) : HSInv ptr (hsRun ptr sched) :=
  hsInv_run_from ptr sched initHS (hsInv_init ptr)

/-- The opCounter after a run of per-call mutations is the starting value
plus the number of completed operations. -/
theorem runEvents_opCounter (evs : List CommEvent) :
    ∀ c : ncclComm, (runEvents c evs).opCounter = c.opCounter + countOps evs := by
  induction evs with
  | nil => intro c; simp [runEvents, countOps]
  | cons e rest ih =>
      intro c
      show (runEvents (applyEvent c e) rest).opCounter = _
      rw [ih]
      cases e with
      | opComplete =>
          simp [applyEvent, countOps, List.countP_cons]
          omega
      | cacheStream s =>
          simp [applyEvent, countOps, List.countP_cons]

/-- Per-call mutations never touch the configured buffer size. -/
theorem runEvents_buffSize (evs : List CommEvent) :
    ∀ c : ncclComm, (runEvents c evs).buffSize = c.buffSize := by
  induction evs with
  | nil => intro c; rfl
  | cons e rest ih =>
      intro c
      show (runEvents (applyEvent c e) rest).buffSize = _
      rw [ih]
      cases e <;> rfl

/-! ### Claims -/

/-- C1: for every communicator in the ready state, for every active ring
`r` and every index `i` in `[0, nDev)`, the Ring Index Tables satisfy
`ringFromUser[r][userFromRing[r][i]] = i` and
`userFromRing[r][ringFromUser[r][i]] = i`; `userFromRing` and
`ringFromUser` are exact inverse permutations for every ring. -/
theorem ring_tables_exact_inverses (c : ncclComm) (hc : ReadyComm c)
    (r : Nat) (hr : r < c.nRings) (i : Nat) (hi : i < c.nDev) :
    (c.ringFromUser r).getD ((c.userFromRing r).getD i 0) 0 = i ∧
    (c.userFromRing r).getD ((c.ringFromUser r).getD i 0) 0 = i := by
  obtain ⟨hpos, hmax, hrings⟩ := hc
  obtain ⟨hbt, hdev⟩ := hrings r hr
  obtain ⟨hlen, hbd, hnd, hu, hrfu⟩ := buildRingTables_ok hbt
  have hrfu2 : c.ringFromUser r = ringFromUserOf c.nDev (c.userFromRing r) := hrfu
  rw [hrfu2]
  exact ringFromUserOf_inverse hlen hbd hnd i hi

/-- Witness for C1 at the concrete ready communicator `comm0` (three
devices, one ring with user rank assignment `[2, 0, 1]`), index 0. -/
theorem ring_tables_exact_inverses_witness :
    ReadyComm comm0 ∧ 0 < comm0.nRings ∧ 0 < comm0.nDev ∧
    ((comm0.ringFromUser 0).getD ((comm0.userFromRing 0).getD 0 0) 0 = 0 ∧
     (comm0.userFromRing 0).getD ((comm0.ringFromUser 0).getD 0 0) 0 = 0) :=
  ⟨by decide, by decide, by decide,
    ring_tables_exact_inverses comm0 (by decide) 0 (by decide) 0 (by decide)⟩

/-- C2: table construction, given any rank assignment, either produces
tables each of which is a bijection on `[0, nDev)`, or — when the input
contains a duplicate or out-of-range rank — fails with a configuration
error; it never returns a non-bijective table. -/
theorem ring_tables_bijective_or_error (nDev : Nat) (ranks : List Nat) :
    (∀ t : RingTables, buildRingTables nDev ranks = Except.ok t →
      IsPermOn nDev t.userFromRing ∧ IsPermOn nDev t.ringFromUser) ∧
    ((¬ ranks.Nodup ∨ ∃ x ∈ ranks, nDev ≤ x) →
      buildRingTables nDev ranks = Except.error ConfigError.invalidRanks) := by
  constructor
  · intro t ht
    obtain ⟨hlen, hbd, hnd, hu, hrfu⟩ := buildRingTables_ok ht
    constructor
    · rw [hu]
      exact valid_ranks_perm hlen hbd hnd
    · rw [hrfu]
      exact ringFromUserOf_perm hlen hbd hnd
  · intro hbad
    unfold buildRingTables
    rw [if_neg]
    rintro ⟨hlen, hbd, hnd⟩
    rcases hbad with h | ⟨x, hx, hge⟩
    · exact h hnd
    · exact absurd (hbd x hx) (by omega)

/-- Witness for C2: a duplicate rank fails configuration, and a valid
assignment yields a bijective user→ring table. -/
theorem ring_tables_bijective_or_error_witness :
    buildRingTables 3 [0, 0, 1] = Except.error ConfigError.invalidRanks ∧
    IsPermOn 3 [2, 0, 1] :=
  ⟨(ring_tables_bijective_or_error 3 [0, 0, 1]).2 (Or.inl (by decide)),
    ((ring_tables_bijective_or_error 3 [2, 0, 1]).1
      { userFromRing := [2, 0, 1], ringFromUser := [1, 2, 0] } (by decide)).1⟩

/-- C3: `publish(step, ptr)` writes `recvPtrs[step]` before setting
`flags[step]` to the ready sentinel (so whenever the flag is ready the
published pointer is in memory), and in any interleaved producer/consumer
execution the consumer never observes the published value of
`recvPtrs[step]` before it has observed `flags[step]` ready — any pointer
it reads comes after `sawReady` and equals the published one. -/
theorem handshake_publish_order (ptr : Nat) (sched : List Bool) :
    ((hsRun ptr sched).flag = FLAG_READY → (hsRun ptr sched).recvPtr = some ptr) ∧
    (∀ v, (hsRun ptr sched).ptrObs = some v →
      (hsRun ptr sched).sawReady = true ∧ v = ptr) := by
  obtain ⟨hmem, hsaw, hobs⟩ := hsInv_run ptr sched
  refine ⟨?_, hobs⟩
  intro hrd
  rcases hmem with ⟨_, hf, _⟩ | ⟨_, hf, _⟩ | ⟨_, _, hp⟩
  · rw [hf] at hrd; exact absurd hrd (by decide)
  · rw [hf] at hrd; exact absurd hrd (by decide)
  · exact hp

/-- Witness for C3 at the schedule producer–producer–consumer–consumer
and published pointer 42. -/
theorem handshake_publish_order_witness :
    (hsRun 42 [true, true, false, false]).flag = FLAG_READY ∧
    (hsRun 42 [true, true, false, false]).recvPtr = some 42 ∧
    (hsRun 42 [true, true, false, false]).ptrObs = some 42 ∧
    ((hsRun 42 [true, true, false, false]).sawReady = true ∧ 42 = 42) :=
  ⟨by decide,
    (handshake_publish_order 42 [true, true, false, false]).1 (by decide),
    by decide,
    (handshake_publish_order 42 [true, true, false, false]).2 42 (by decide)⟩

/-- C4: the opCounter never decreases across a run of per-call mutations —
it is advanced exactly once per completed collective operation — and the
consumer trusts a slot in epoch `e` only when it has confirmed the
producer's opCounter is at least `e` and the flag is ready; a stale ready
flag from an earlier epoch is rejected. -/
theorem opCounter_monotone_epoch_gating (c : ncclComm) (evs : List CommEvent) :
    c.opCounter ≤ (runEvents c evs).opCounter ∧
    (runEvents c evs).opCounter = c.opCounter + countOps evs ∧
    (∀ producerOp epoch flag : Int, consumerTrusts producerOp epoch flag = true →
      epoch ≤ producerOp ∧ flag = FLAG_READY) ∧
    (∀ producerOp epoch : Int, producerOp < epoch →
      consumerTrusts producerOp epoch FLAG_READY = false) := by
  refine ⟨?_, runEvents_opCounter evs c, ?_, ?_⟩
  · rw [runEvents_opCounter evs c]
    omega
  · intro producerOp epoch flag h
    unfold consumerTrusts at h
    simp only [Bool.and_eq_true, decide_eq_true_eq] at h
    exact h
  · intro producerOp epoch h
    unfold consumerTrusts
    simp only [Bool.and_eq_false_iff, decide_eq_false_iff_not]
    left
    omega

/-- Witness for C4: an up-to-date producer (opCounter 5, epoch 3) passes
the gate, a stale one (opCounter 1, epoch 2) is rejected despite a ready
flag. -/
theorem opCounter_monotone_epoch_gating_witness :
    ((3 : Int) ≤ 5 ∧ FLAG_READY = FLAG_READY) ∧
    consumerTrusts 1 2 FLAG_READY = false :=
  ⟨(opCounter_monotone_epoch_gating comm0 []).2.2.1 5 3 FLAG_READY (by decide),
    (opCounter_monotone_epoch_gating comm0 []).2.2.2 1 2 (by decide)⟩

/-- C5: for every packing whose header fits in the pad and whose alignment
divides it, `buff` begins at exactly `NCCL_MEM_PAD_ALIGN` (4096) bytes
from the start of the block, and the header fields `flags`, `recvPtrs`,
`opCounter` all lie within the first 4096 bytes. -/
theorem ncclMem_fixed_layout (p : Packing)
    (hsz : headerSize p ≤ NCCL_MEM_PAD_ALIGN)
    (hal : headerAlign p ∣ NCCL_MEM_PAD_ALIGN) :
    buffOffset p = NCCL_MEM_PAD_ALIGN ∧
    flagsOffset p + MAXFLAGS * p.sizeInt ≤ NCCL_MEM_PAD_ALIGN ∧
    recvPtrsOffset p + MAXFLAGS * p.sizePtr ≤ NCCL_MEM_PAD_ALIGN ∧
    opCounterOffset p + p.sizeInt ≤ NCCL_MEM_PAD_ALIGN := by
  have hpos := headerAlign_pos p
  have hb : buffOffset p = NCCL_MEM_PAD_ALIGN := by
    unfold buffOffset unionSize
    rw [Nat.max_eq_right hsz]
    exact alignUp_eq_of_dvd _ _ hpos hal
  have hend : headerEnd p ≤ NCCL_MEM_PAD_ALIGN :=
    le_trans (headerEnd_le_headerSize p) hsz
  obtain ⟨h1, h2, h3⟩ := header_field_bounds p
  have hro : recvPtrsOffset p + MAXFLAGS * p.sizePtr ≤ headerEnd p := by
    unfold headerEnd
    omega
  refine ⟨hb, ?_, le_trans hro hend, hend⟩
  exact le_trans h1 (le_trans (Nat.le_add_right _ _) (le_trans hro hend))

/-- Witness for C5 under the LP64 data model (4-byte int, 8-byte pointer):
the header fits and `buff` sits at byte 4096. -/
theorem ncclMem_fixed_layout_witness :
    headerSize packingLP64 ≤ NCCL_MEM_PAD_ALIGN ∧
    headerAlign packingLP64 ∣ NCCL_MEM_PAD_ALIGN ∧
    buffOffset packingLP64 = NCCL_MEM_PAD_ALIGN :=
  ⟨by decide, by decide,
    (ncclMem_fixed_layout packingLP64 (by decide) (by decide)).1⟩

/-- C6 counterexample: a Peer Reference whose peer is in the same process
(and on the same GPU) does carry a cleanup handle — `devCleanup` is set —
and that handle is released at teardown, contradicting the claim that a
same-process peer has no cleanup handle set and none released. -/
theorem same_process_cleanup_counterexample :
    (mkNodeRef true true 100 200 7 9 300).devCleanup = some 7 ∧
    teardownNodeRef (mkNodeRef true true 100 200 7 9 300) = [7] := by
  decide

/-- C6 amended: `hostCleanup` handles exist exactly for cross-process Peer
References and are released exactly once at teardown; `devCleanup` handles
exist exactly when the peer is in the same process and on the same GPU and
are likewise released exactly once; a same-process different-GPU peer has
no cleanup handle and none is released. -/
theorem cleanup_handles_lifecycle (sp sg : Bool) (ra la dh hh oa : Nat) :
    ((mkNodeRef sp sg ra la dh hh oa).hostCleanup.isSome = true ↔ sp = false) ∧
    ((mkNodeRef sp sg ra la dh hh oa).devCleanup.isSome = true ↔
      (sp = true ∧ sg = true)) ∧
    (sp = false → teardownNodeRef (mkNodeRef sp sg ra la dh hh oa) = [hh]) ∧
    (sp = true → sg = true →
      teardownNodeRef (mkNodeRef sp sg ra la dh hh oa) = [dh]) ∧
    (sp = true → sg = false →
      teardownNodeRef (mkNodeRef sp sg ra la dh hh oa) = []) := by
  cases sp <;> cases sg <;> simp [mkNodeRef, teardownNodeRef]

/-- Witness for C6 amended: a cross-process Peer Reference releases its
host cleanup handle exactly once at teardown. -/
theorem cleanup_handles_lifecycle_witness :
    teardownNodeRef (mkNodeRef false true 1 2 7 9 3) = [9] :=
  (cleanup_handles_lifecycle false true 1 2 7 9 3).2.2.1 rfl

/-- C7: the number of simultaneous rings per communicator is bounded by
`MAXRINGS = 8`, and each Synchronization Block carries exactly
`MAXFLAGS = 16` in-flight step slots — one flag and one published pointer
per slot. -/
theorem fixed_ring_and_flag_capacities :
    MAXRINGS = 8 ∧ MAXFLAGS = 16 ∧
    (∀ c : ncclComm, ReadyComm c → c.nRings ≤ MAXRINGS) ∧
    (∀ m : ncclMem, m.flags.length = MAXFLAGS ∧ m.recvPtrs.length = MAXFLAGS) := by
  refine ⟨rfl, rfl, ?_, ?_⟩
  · intro c hc
    exact hc.2.1
  · intro m
    exact ⟨m.flags_size, m.recvPtrs_size⟩

/-- Witness for C7 at the concrete ready communicator `comm0`. -/
theorem fixed_ring_and_flag_capacities_witness :
    ReadyComm comm0 ∧ comm0.nRings ≤ MAXRINGS :=
  ⟨by decide, fixed_ring_and_flag_capacities.2.2.1 comm0 (by decide)⟩

/-- C8: the default buffer size constant is `2^25` bytes; a communicator's
`buffSize` can be overridden at creation time, defaults to the constant,
and is never changed by per-call mutations afterwards. -/
theorem buffer_size_configuration (n d b : Nat) (c : ncclComm)
    (evs : List CommEvent) :
    DEFAULT_BUFFER_SIZE_BYTES = 2 ^ 25 ∧
    (initComm n d none).buffSize = DEFAULT_BUFFER_SIZE_BYTES ∧
    (initComm n d (some b)).buffSize = b ∧
    (runEvents c evs).buffSize = c.buffSize :=
  ⟨by decide, rfl, rfl, runEvents_buffSize evs c⟩

/-- C9: the verbosity level takes exactly the ordered values NONE=0,
WARN=1, INFO=2, ABORT=3; a warning is emitted iff the level is at least
WARN, an info diagnostic is emitted iff the level is at least INFO, and a
warning terminates the process iff the level is ABORT. -/
theorem debug_level_semantics :
    DebugLevel.NONE.toNat = 0 ∧ DebugLevel.WARN.toNat = 1 ∧
    DebugLevel.INFO.toNat = 2 ∧ DebugLevel.ABORT.toNat = 3 ∧
    ∀ lvl : DebugLevel,
      ((WARN lvl).emitted = true ↔ DebugLevel.WARN.toNat ≤ lvl.toNat) ∧
      ((INFO lvl).emitted = true ↔ DebugLevel.INFO.toNat ≤ lvl.toNat) ∧
      ((WARN lvl).aborted = true ↔ lvl = DebugLevel.ABORT) := by
  refine ⟨rfl, rfl, rfl, rfl, ?_⟩
  intro lvl
  cases lvl <;> exact ⟨by decide, by decide, by decide⟩

/-- C10: an INFO diagnostic never terminates the process at any debug
level; only the WARN path can abort, and only when the level is at least
ABORT; an INFO message at level ABORT is printed and execution continues. -/
theorem info_never_terminates :
    (∀ lvl : DebugLevel, (INFO lvl).aborted = false) ∧
    (∀ lvl : DebugLevel,
      (WARN lvl).aborted = true ↔ DebugLevel.ABORT.toNat ≤ lvl.toNat) ∧
    (INFO DebugLevel.ABORT).emitted = true ∧
    (INFO DebugLevel.ABORT).aborted = false := by
  refine ⟨?_, ?_, by decide, by decide⟩
  · intro lvl
    cases lvl <;> decide
  · intro lvl
    cases lvl <;> exact by decide
